import Mathlib

/-
Verification of the SBUS frame codec (`src/packet.rs`, `src/lib.rs`) and the
streaming frame synchronizer (`src/receiver.rs`).

Modelling conventions:
  * bytes and machine integers are `Nat`; `u32` overflow is modelled with an
    explicit `% 2 ^ 32`, `usize` subtraction with an explicit wrap `usub`;
  * fallible operations (slice indexing, `copy_from_slice`, `copy_within`,
    shifts, `assert!`) return `Option`; `none` models a Rust panic / halt;
  * the receiver's backing array `[u8; 1 + SBUS_PACKET_SIZE]` is a
    `List Nat` of length 26; `&mut self.packet[1..]` becomes `packet.drop 1`
    together with re-assembly `packet.take 1 ++ ...`.
-/

namespace SBus

def SBUS_PACKET_SIZE : Nat := 25

def SBUS_PACKET_BEGIN : Nat := 0x0F

/-- Models `is_sbus_packet_end` from `src/receiver.rs` (and `src/lib.rs`):
the end-marker whitelist. -/
def is_sbus_packet_end (b : Nat) : Bool :=
  b == 0x0 || b == 0x4 || b == 0x14 || b == 0x24 || b == 0x34

/-- Wrapping `usize` subtraction (two's-complement wrap at `2 ^ 64`),
as performed by release-mode Rust. -/
def usub (a b : Nat) : Nat :=
  if b ≤ a then a - b else 2 ^ 64 - (b - a)

/-- Models `struct Data` from `src/packet.rs`. -/
structure Data where
  channels : List Nat
  channel17 : Bool
  channel18 : Bool
  frame_lost : Bool
  failsafe : Bool
deriving Repr, DecidableEq

/-- Models `#[repr(C)] struct Packet` from `src/packet.rs`. -/
structure Packet where
  padding : Nat
  header : Nat
  channel_words : List Nat
  digital_and_flags : Nat
  footer : Nat
deriving Repr, DecidableEq

/-- Little-endian 16-bit word at byte offset `2 + 2*j` of the backing buffer:
field `channel_words[j]` of the transmuted `Packet`. -/
def word16 (buf : List Nat) (j : Nat) : Nat :=
  buf.getD (2 + 2 * j) 0 + 256 * buf.getD (3 + 2 * j) 0

/-- Models the `transmute` of the 26-byte backing buffer into a `Packet`
(`#[repr(C)]`, little-endian target, so `u16::from_le` is the identity). -/
def Packet.ofBuf (buf : List Nat) : Packet :=
  { padding := buf.getD 0 0
    header := buf.getD 1 0
    channel_words := (List.range 11).map (word16 buf)
    digital_and_flags := buf.getD 24 0
    footer := buf.getD 25 0 }

/-- `SHIFT` table of `Packet::parse` (identical in both sources). -/
def SHIFT : List Nat := [0, 5, 10, 15, 4, 9, 14, 3, 8, 13, 2, 7, 12, 1, 6, 11]

/-- `INDEX` table of `Packet::parse` in `src/packet.rs`. -/
def INDEX : List Nat := [0, 1, 2, 2, 3, 4, 4, 5, 6, 6, 7, 8, 8, 9, 10, 10]

/-- `INDEX` table of `Packet::parse` in `src/lib.rs` (the historical variant). -/
def INDEX_LIB : List Nat := [0, 1, 2, 3, 3, 4, 5, 5, 6, 7, 7, 8, 9, 9, 10, 10]

/-- The `for i in 0..16` loop body of `Packet::parse`, iterated over the
per-channel `(INDEX[i], SHIFT[i])` pairs.  `bits` is the `u32` accumulator.
Array indexing is checked (`none` models a panic), the left shift is checked
against the `u32` width, and the `u32` result is truncated at `2 ^ 32`. -/
def parseChannels (words : List Nat) : Nat → List (Nat × Nat) → Option (List Nat)
  | _, [] => some []
  | bits, (ix, sh) :: rest =>
    match words[ix]? with
    | none => none
    | some w =>
      if sh < 32 then
        let bits2 := bits ||| (w <<< sh) % 2 ^ 32
        match parseChannels words (bits2 >>> 11) rest with
        | none => none
        | some l => some (bits2 % 2 ^ 11 :: l)
      else none

/-- Common body of the two `Packet::parse` implementations, parameterized by
the `INDEX` table.  Flag extraction masks `digital_and_flags` exactly as the
source does. -/
def Packet.parseWith (index : List Nat) (p : Packet) : Option Data :=
  match parseChannels p.channel_words 0 (index.zip SHIFT) with
  | none => none
  | some chans =>
    some { channels := chans
           channel17 := decide (0 < p.digital_and_flags &&& (1 <<< 7))
           channel18 := decide (0 < p.digital_and_flags &&& (1 <<< 6))
           frame_lost := decide (0 < p.digital_and_flags &&& (1 <<< 5))
           failsafe := decide (0 < p.digital_and_flags &&& (1 <<< 4)) }

/-- Models `Packet::parse` from `src/packet.rs` (the codec the synchronizer
in `src/receiver.rs` calls). -/
def Packet.parse (p : Packet) : Option Data := p.parseWith INDEX

/-- Models `Packet::parse` from `src/lib.rs` (the historical variant, with
the other index table). -/
def Packet.parse_lib (p : Packet) : Option Data := p.parseWith INDEX_LIB

/-- Models `struct Receiver` from `src/receiver.rs`:
`packet: [u8; 1 + SBUS_PACKET_SIZE]` and `size: usize`. -/
structure Receiver where
  packet : List Nat
  size : Nat
deriving Repr, DecidableEq

/-- Models `Receiver::new`. -/
def Receiver.new : Receiver :=
  { packet := List.replicate (1 + SBUS_PACKET_SIZE) 0, size := 0 }

/-- Models `Receiver::reset`: drops the buffered partial frame. -/
def Receiver.reset (r : Receiver) : Receiver := { r with size := 0 }

/-- Overwrite `dst` starting at position `start` with the elements of `src`
(unchecked write; bounds are checked by the callers below). -/
def writeAt (dst : List Nat) (start : Nat) (src : List Nat) : List Nat :=
  dst.take start ++ src ++ dst.drop (start + src.length)

/-- Models `dst[a..b].copy_from_slice(src)`: panics (`none`) unless the
range is valid for `dst` and the lengths agree. -/
def copyFromSlice (dst : List Nat) (a b : Nat) (src : List Nat) : Option (List Nat) :=
  if a ≤ b ∧ b ≤ dst.length ∧ b - a = src.length then some (writeAt dst a src)
  else none

/-- Models `l.copy_within(a..b, dest)`: panics (`none`) unless the source
range is valid and the destination fits. -/
def copyWithin (l : List Nat) (a b dest : Nat) : Option (List Nat) :=
  if a ≤ b ∧ b ≤ l.length ∧ dest + (b - a) ≤ l.length then
    some (writeAt l dest ((l.drop a).take (b - a)))
  else none

/-- Index of the first start-marker byte in a chunk (the `for i in
0..bytes.len()` scan of `Receiver::find_partial_packet`). -/
def findBeginIdx : List Nat → Option Nat
  | [] => none
  | b :: rest =>
    if b == SBUS_PACKET_BEGIN then some 0 else (findBeginIdx rest).map (· + 1)

/-- Models `Receiver::find_partial_packet` from `src/receiver.rs`: scan the
chunk for the first start marker and buffer the suffix from there. -/
def Receiver.find_packet_begin (r : Receiver) (bytes : List Nat) : Option Receiver :=
  match findBeginIdx bytes with
  | none => some r
  | some i =>
    let size := bytes.length - i
    match copyFromSlice r.packet 1 (1 + size) (bytes.drop i) with
    | none => none
    | some pk => some { packet := pk, size := size }

/-- Models the `for offset in 0..self.size` loop of
`Receiver::continue_receive`; the list argument is the remaining offsets.
Returns the updated receiver together with the value returned by
`continue_receive` (`none` overall models a panic). -/
def Receiver.continue_loop (r : Receiver) (bytes : List Nat) :
    List Nat → Option (Receiver × Option Data)
  | [] => some ({ r with size := 0 }, none)
  | offset :: rest =>
    match (r.packet.drop 1)[offset]? with
    | none => none
    | some b =>
      if b ≠ SBUS_PACKET_BEGIN then r.continue_loop bytes rest
      else
        let size := usub r.size offset
        let remain_size := usub SBUS_PACKET_SIZE size
        if bytes.length < remain_size then
          match copyFromSlice (r.packet.drop 1) size (size + bytes.length) bytes with
          | none => none
          | some pk =>
            some ({ packet := r.packet.take 1 ++ pk, size := r.size + bytes.length }, none)
        else
          match bytes[usub remain_size 1]? with
          | none => none
          | some last =>
            if is_sbus_packet_end last then
              match copyWithin (r.packet.drop 1) offset r.size 0 with
              | none => none
              | some pk1 =>
                match copyFromSlice pk1 size pk1.length (bytes.take remain_size) with
                | none => none
                | some pk2 =>
                  let buf := r.packet.take 1 ++ pk2
                  match Packet.parse (Packet.ofBuf buf) with
                  | none => none
                  | some d =>
                    match Receiver.find_packet_begin { packet := buf, size := 0 }
                        (bytes.drop remain_size) with
                    | none => none
                    | some r2 => some (r2, some d)
            else r.continue_loop bytes rest

/-- Phases 2 and 3 of `Receiver::receive`: the code executed after
`continue_receive` fails to return data — the exact-length fast path
followed by the fresh scan. -/
def Receiver.phase23 (r1 : Receiver) (bytes : List Nat) :
    Option (Receiver × Option Data) :=
  if bytes.length == SBUS_PACKET_SIZE then
    if bytes.getD 0 0 == SBUS_PACKET_BEGIN &&
        is_sbus_packet_end (bytes.getD (SBUS_PACKET_SIZE - 1) 0) then
      match copyFromSlice r1.packet 1 r1.packet.length bytes with
      | none => none
      | some pk =>
        match Packet.parse (Packet.ofBuf pk) with
        | none => none
        | some d => some ({ packet := pk, size := r1.size }, some d)
    else
      match r1.find_packet_begin (bytes.drop 1) with
      | none => none
      | some r2 => some (r2, none)
  else
    match r1.find_packet_begin bytes with
    | none => none
    | some r2 => some (r2, none)

/-- Models `Receiver::receive` from `src/receiver.rs`.  The result is
`none` when the call halts (the `assert!` on the chunk length, or any
panic), and `some (r', d)` when it returns `d` leaving state `r'`. -/
def Receiver.receive (r : Receiver) (bytes : List Nat) :
    Option (Receiver × Option Data) :=
  if SBUS_PACKET_SIZE < bytes.length then none
  else
    match (if 0 < r.size then r.continue_loop bytes (List.range r.size)
           else some (r, none)) with
    | none => none
    | some (r1, some d) => some (r1, some d)
    | some (r1, none) => r1.phase23 bytes

/-- Run a sequence of chunks through the receiver, returning the final
state, or `none` if some call halted. -/
def runTrace (r : Receiver) : List (List Nat) → Option Receiver
  | [] => some r
  | c :: cs =>
    match r.receive c with
    | none => none
    | some (r2, _) => runTrace r2 cs

/-- Observable trace of a chunk sequence: the list of results produced
before any halt, and whether a halt occurred. -/
def run (r : Receiver) : List (List Nat) → List (Option Data) × Bool
  | [] => ([], false)
  | c :: cs =>
    match r.receive c with
    | none => ([], true)
    | some (r2, d) =>
      let t := run r2 cs
      (d :: t.1, t.2)

/-- Two receiver states are observationally equivalent when every chunk
sequence produces the same observable trace from both. -/
def ObsEquiv (r1 r2 : Receiver) : Prop :=
  ∀ cs : List (List Nat), run r1 cs = run r2 cs

/-- Receiver states reachable from `Receiver.new` by `receive` calls with
chunks of length at most `SBUS_PACKET_SIZE`, and by `reset`. -/
inductive Reachable : Receiver → Prop
  | base : Reachable Receiver.new
  | step {r r' : Receiver} {c : List Nat} {d : Option Data} :
      Reachable r → c.length ≤ SBUS_PACKET_SIZE →
      r.receive c = some (r', d) → Reachable r'
  | reset {r : Receiver} : Reachable r → Reachable r.reset

/-- The sample valid frame used by the repository's tests
(`0F E0 03 1F 58 C0 07 16 B0 80 05 2C 60 01 0B F8 C0 07 00 00 00 00 00 03 00`). -/
def sampleFrame : List Nat :=
  [0x0F, 0xE0, 0x03, 0x1F, 0x58, 0xC0, 0x07, 0x16, 0xB0, 0x80, 0x05, 0x2C,
   0x60, 0x01, 0x0B, 0xF8, 0xC0, 0x07, 0x00, 0x00, 0x00, 0x00, 0x00, 0x03, 0x00]

/-- Feed two chunks in sequence; propagate a halt, return the second result. -/
def receive2 (r : Receiver) (c1 c2 : List Nat) : Option (Receiver × Option Data) :=
  match r.receive c1 with
  | none => none
  | some (r', _) => r'.receive c2

/-- First chunk of the trace that drives the buffered-byte count to 47:
a 24-byte chunk starting with the start marker and ending with a second
start marker. -/
def overflowChunk1 : List Nat := 15 :: (List.replicate 22 255 ++ [15])

/-- Second chunk of that trace: 23 bytes none of which is a start marker or
a whitelisted end marker at the checked position. -/
def overflowChunk2 : List Nat := List.replicate 23 255

/-- Shared part of the simulation relations: equal buffered-byte counts,
well-formed 26-byte backing buffers, equal (never-written) padding cells. -/
def PairBase (u1 u2 : Receiver) : Prop :=
  u1.size = u2.size ∧ u1.packet.length = 26 ∧ u2.packet.length = 26 ∧
  u1.packet.take 1 = u2.packet.take 1

/-- Simulation relation for healthy states: the buffered-byte count is in
range, the two valid regions agree byte for byte, and a non-empty buffer
starts with the start marker.  Bytes beyond the valid region (stale
leftovers of earlier frames) may differ. -/
def Core (u1 u2 : Receiver) : Prop :=
  PairBase u1 u2 ∧ u1.size ≤ 24 ∧
  (u1.packet.drop 1).take u1.size = (u2.packet.drop 1).take u2.size ∧
  (0 < u1.size → (u1.packet.drop 1)[0]? = some SBUS_PACKET_BEGIN)

/-- A state whose buffered-byte count has escaped past the frame size while
position 0 still holds the start marker: every subsequent `receive` call
halts from such a state, so its remaining content is unobservable. -/
def Dead (r : Receiver) : Prop :=
  r.packet.length = 26 ∧ 25 ≤ r.size ∧ r.size ≤ 49 ∧
  (r.packet.drop 1)[0]? = some SBUS_PACKET_BEGIN

/-- Simulation relation for pairs of dead states. -/
def DeadP (u1 u2 : Receiver) : Prop := PairBase u1 u2 ∧ Dead u1 ∧ Dead u2

/-- The full simulation relation: equal states, related healthy states, or
a pair of dead states. -/
def Rel (r1 r2 : Receiver) : Prop := r1 = r2 ∨ Core r1 r2 ∨ DeadP r1 r2

/-- Possible joint outcomes of the continuation loop on a related pair:
both halt, both decode the same data into the same state, or both return
no data leaving related states. -/
def LoopOut (o1 o2 : Option (Receiver × Option Data)) : Prop :=
  (o1 = none ∧ o2 = none) ∨
  (∃ st d, o1 = some (st, some d) ∧ o2 = some (st, some d)) ∨
  (∃ v1 v2, o1 = some (v1, none) ∧ o2 = some (v2, none) ∧ (Core v1 v2 ∨ DeadP v1 v2))

/-- Claim C1.  The codec called by the synchronizer (`Packet::parse` in
`src/packet.rs`) does NOT decode the sample frame to the channel list the
spec states; the historical `src/lib.rs` parse does.  The two outputs are
exhibited side by side: channel 4 is 1376 versus the claimed 352. -/
theorem parse_sample_frame_divergence :
    Packet.parse (Packet.ofBuf (0 :: sampleFrame)) =
      some { channels := [992, 992, 352, 992, 1376, 367, 352, 1376, 357, 352,
                          2020, 997, 0, 14, 0, 0],
             channel17 := false, channel18 := false,
             frame_lost := false, failsafe := false } ∧
    Packet.parse_lib (Packet.ofBuf (0 :: sampleFrame)) =
      some { channels := [992, 992, 352, 992, 352, 352, 352, 352, 352, 352,
                          992, 992, 0, 0, 0, 0],
             channel17 := false, channel18 := false,
             frame_lost := false, failsafe := false } ∧
    (Packet.parse (Packet.ofBuf (0 :: sampleFrame))).map Data.channels ≠
      some [992, 992, 352, 992, 352, 352, 352, 352, 352, 352, 992, 992, 0, 0, 0, 0] := by
  decide

/-- Claim C2.  The two `Packet::parse` implementations are not extensionally
equal: the sample 25-byte frame already separates their channel outputs. -/
theorem parse_implementations_differ :
    ∃ frame : List Nat, frame.length = 25 ∧
      (Packet.parse (Packet.ofBuf (0 :: frame))).map Data.channels ≠
        (Packet.parse_lib (Packet.ofBuf (0 :: frame))).map Data.channels :=
  ⟨sampleFrame, by decide, by decide⟩

/-- Claim C3.  `receive` can halt on chunks of legal length: after the
chunks `[0F 0F]` and `FF × 23` (both of length at most 25, neither call
halting), the third call with the single byte `FF` halts — the buffered
count has grown to 25, `remain_size` underflows and the chunk is indexed
out of bounds. -/
theorem receive_halts_within_contract :
    (∀ c ∈ [[15, 15], List.replicate 23 255, [255]], c.length ≤ SBUS_PACKET_SIZE) ∧
    runTrace Receiver.new [[15, 15], List.replicate 23 255] ≠ none ∧
    (runTrace Receiver.new [[15, 15], List.replicate 23 255]).map Receiver.size = some 25 ∧
    runTrace Receiver.new [[15, 15], List.replicate 23 255, [255]] = none := by
  decide

/-- Claim C4.  The buffered-byte count escapes the range `0..25`: two
legal-length chunks drive it to 47 (the continuation loop appends a chunk
at a later start-marker offset after a failed end-marker check, without
bounding the total). -/
theorem buffered_count_escapes_range :
    (∀ c ∈ [overflowChunk1, overflowChunk2], c.length ≤ SBUS_PACKET_SIZE) ∧
    (runTrace Receiver.new [overflowChunk1, overflowChunk2]).map Receiver.size = some 47 := by
  decide

/-- Claim C6.  Splitting the sample frame at any offset `k` in `1..24`
across two `receive` calls: the first call returns no data, and the second
returns exactly the result of the unsplit call. -/
theorem receive_split_frame (k : Nat) (h1 : 1 ≤ k) (h2 : k ≤ 24) :
    (Receiver.new.receive (sampleFrame.take k)).map Prod.snd = some none ∧
    (receive2 Receiver.new (sampleFrame.take k) (sampleFrame.drop k)).bind Prod.snd =
      (Receiver.new.receive sampleFrame).bind Prod.snd ∧
    (Receiver.new.receive sampleFrame).bind Prod.snd ≠ none := by
  interval_cases k <;> decide

/-- Witness for `receive_split_frame` at the concrete offset `k = 7`. -/
theorem receive_split_frame_witness :
    1 ≤ 7 ∧ 7 ≤ 24 ∧
    ((Receiver.new.receive (sampleFrame.take 7)).map Prod.snd = some none ∧
     (receive2 Receiver.new (sampleFrame.take 7) (sampleFrame.drop 7)).bind Prod.snd =
       (Receiver.new.receive sampleFrame).bind Prod.snd ∧
     (Receiver.new.receive sampleFrame).bind Prod.snd ≠ none) :=
  ⟨by decide, by decide, receive_split_frame 7 (by decide) (by decide)⟩

/-! ### Totality of the unpack loop -/

lemma parseChannels_total (words : List Nat) :
    ∀ (ps : List (Nat × Nat)), (∀ p ∈ ps, p.1 < words.length ∧ p.2 < 32) →
    ∀ bits, ∃ l, parseChannels words bits ps = some l ∧ l.length = ps.length ∧
      ∀ x ∈ l, x ≤ 2047 := by
  intro ps
  induction ps with
  | nil => intro _ bits; exact ⟨[], rfl, rfl, by simp⟩
  | cons p rest ih =>
    intro hps bits
    obtain ⟨ix, sh⟩ := p
    have h1 := hps (ix, sh) (List.mem_cons_self _ _)
    obtain ⟨w, hw⟩ : ∃ w, words[ix]? = some w :=
      ⟨_, List.getElem?_eq_getElem h1.1⟩
    obtain ⟨l, hl, hlen, hbound⟩ :=
      ih (fun q hq => hps q (List.mem_cons_of_mem _ hq))
        ((bits ||| (w <<< sh) % 2 ^ 32) >>> 11)
    refine ⟨(bits ||| (w <<< sh) % 2 ^ 32) % 2 ^ 11 :: l, ?_, by simp [hlen], ?_⟩
    · simp only [parseChannels, hw, if_pos h1.2, hl]
    · intro x hx
      rcases List.mem_cons.mp hx with h | h
      · subst h
        have := Nat.mod_lt (bits ||| (w <<< sh) % 2 ^ 32) (show 0 < 2 ^ 11 by norm_num)
        omega
      · exact hbound x h

lemma index_tables_ok :
    (∀ p ∈ INDEX.zip SHIFT, p.1 < 11 ∧ p.2 < 32) ∧
    (∀ p ∈ INDEX_LIB.zip SHIFT, p.1 < 11 ∧ p.2 < 32) := by decide

lemma ofBuf_words_length (buf : List Nat) :
    (Packet.ofBuf buf).channel_words.length = 11 := by
  simp [Packet.ofBuf]

lemma parseWith_total (index : List Nat) (buf : List Nat)
    (hidx : ∀ p ∈ index.zip SHIFT, p.1 < 11 ∧ p.2 < 32) :
    ∃ d, (Packet.ofBuf buf).parseWith index = some d ∧
      d.channels.length = (index.zip SHIFT).length ∧ ∀ x ∈ d.channels, x ≤ 2047 := by
  obtain ⟨l, hl, hlen, hbound⟩ :=
    parseChannels_total (Packet.ofBuf buf).channel_words (index.zip SHIFT)
      (by rw [ofBuf_words_length]; exact hidx) 0
  refine ⟨{ channels := l,
            channel17 := decide (0 < (Packet.ofBuf buf).digital_and_flags &&& (1 <<< 7)),
            channel18 := decide (0 < (Packet.ofBuf buf).digital_and_flags &&& (1 <<< 6)),
            frame_lost := decide (0 < (Packet.ofBuf buf).digital_and_flags &&& (1 <<< 5)),
            failsafe := decide (0 < (Packet.ofBuf buf).digital_and_flags &&& (1 <<< 4)) },
         ?_, hlen, hbound⟩
  simp only [Packet.parseWith, hl]

lemma parse_ofBuf_total (buf : List Nat) :
    ∃ d, Packet.parse (Packet.ofBuf buf) = some d ∧
      d.channels.length = 16 ∧ ∀ x ∈ d.channels, x ≤ 2047 := by
  obtain ⟨d, hd, hlen, hb⟩ := parseWith_total INDEX buf index_tables_ok.1
  exact ⟨d, hd, by rw [hlen]; decide, hb⟩

/-- Claim C9.  `parse` is total on arbitrary frame content: both index
tables keep every lookup inside the eleven channel words, every shift is
below the `u32` width, `parse` returns a `Data`, and every decoded channel
is at most 2047. -/
theorem parse_total_and_bounded (frame : List Nat) (hlen : frame.length = 25) :
    (∀ p ∈ INDEX.zip SHIFT, p.1 < 11 ∧ p.2 < 32) ∧
    (∀ p ∈ INDEX_LIB.zip SHIFT, p.1 < 11 ∧ p.2 < 32) ∧
    (∃ d, Packet.parse (Packet.ofBuf (0 :: frame)) = some d ∧
      d.channels.length = 16 ∧ ∀ x ∈ d.channels, x ≤ 2047) ∧
    (∃ d, Packet.parse_lib (Packet.ofBuf (0 :: frame)) = some d ∧
      d.channels.length = 16 ∧ ∀ x ∈ d.channels, x ≤ 2047) := by
  refine ⟨index_tables_ok.1, index_tables_ok.2, parse_ofBuf_total (0 :: frame), ?_⟩
  obtain ⟨d, hd, hl, hb⟩ := parseWith_total INDEX_LIB (0 :: frame) index_tables_ok.2
  exact ⟨d, hd, by rw [hl]; decide, hb⟩

/-- Witness for `parse_total_and_bounded` at the sample frame. -/
theorem parse_total_and_bounded_witness :
    sampleFrame.length = 25 ∧
    ((∀ p ∈ INDEX.zip SHIFT, p.1 < 11 ∧ p.2 < 32) ∧
     (∀ p ∈ INDEX_LIB.zip SHIFT, p.1 < 11 ∧ p.2 < 32) ∧
     (∃ d, Packet.parse (Packet.ofBuf (0 :: sampleFrame)) = some d ∧
       d.channels.length = 16 ∧ ∀ x ∈ d.channels, x ≤ 2047) ∧
     (∃ d, Packet.parse_lib (Packet.ofBuf (0 :: sampleFrame)) = some d ∧
       d.channels.length = 16 ∧ ∀ x ∈ d.channels, x ≤ 2047)) :=
  ⟨by decide, parse_total_and_bounded sampleFrame (by decide)⟩

/-- Claim C10.  `parse` reads only buffer positions 2–24 (the channel-word
bytes, frame bytes 1–22, and the flag byte, frame byte 23): buffers that
agree there — and may differ in the padding byte, the start-marker byte and
the end-marker byte — decode identically. -/
theorem parse_ignores_marker_bytes (b1 b2 : List Nat)
    (h : ∀ i, 2 ≤ i → i ≤ 24 → b1.getD i 0 = b2.getD i 0) :
    Packet.parse (Packet.ofBuf b1) = Packet.parse (Packet.ofBuf b2) := by
  have hw : (Packet.ofBuf b1).channel_words = (Packet.ofBuf b2).channel_words := by
    simp only [Packet.ofBuf]
    refine List.map_congr_left ?_
    intro j hj
    have hj11 : j < 11 := List.mem_range.mp hj
    have e1 := h (2 + 2 * j) (by omega) (by omega)
    have e2 := h (3 + 2 * j) (by omega) (by omega)
    simp only [word16, e1, e2]
  have hf : (Packet.ofBuf b1).digital_and_flags = (Packet.ofBuf b2).digital_and_flags :=
    h 24 (by omega) (by omega)
  simp only [Packet.parse, Packet.parseWith, hw, hf]

/-- Witness for `parse_ignores_marker_bytes`: the sample buffer against a
copy with different padding, start-marker and end-marker bytes. -/
theorem parse_ignores_marker_bytes_witness :
    (∀ i, 2 ≤ i → i ≤ 24 → (0 :: sampleFrame).getD i 0 =
      (7 :: 9 :: (sampleFrame.drop 1).take 23 ++ [4]).getD i 0) ∧
    Packet.parse (Packet.ofBuf (0 :: sampleFrame)) =
      Packet.parse (Packet.ofBuf (7 :: 9 :: (sampleFrame.drop 1).take 23 ++ [4])) :=
  ⟨fun i h2 h24 => by interval_cases i <;> rfl,
   parse_ignores_marker_bytes _ _ (fun i h2 h24 => by interval_cases i <;> rfl)⟩

/-! ### Receiver helper lemmas -/

lemma copyFromSlice_some {dst src : List Nat} {a b : Nat}
    (h1 : a ≤ b) (h2 : b ≤ dst.length) (h3 : b - a = src.length) :
    copyFromSlice dst a b src = some (writeAt dst a src) := by
  simp [copyFromSlice, h1, h2, h3]

lemma writeAt_length {dst src : List Nat} {a : Nat} (h : a + src.length ≤ dst.length) :
    (writeAt dst a src).length = dst.length := by
  simp only [writeAt, List.length_append, List.length_take, List.length_drop]
  omega

lemma findBeginIdx_lt_length :
    ∀ {l : List Nat} {i : Nat}, findBeginIdx l = some i → i < l.length := by
  intro l
  induction l with
  | nil => intro i h; simp [findBeginIdx] at h
  | cons b rest ih =>
    intro i h
    by_cases hb : (b == SBUS_PACKET_BEGIN) = true
    · simp [findBeginIdx, hb] at h
      simp only [List.length_cons]
      omega
    · simp only [findBeginIdx, hb, if_false, Bool.false_eq_true, if_neg] at h
      rcases Option.map_eq_some'.mp h with ⟨j, hj, hji⟩
      have := ih hj
      simp only [List.length_cons]
      omega

lemma findBeginIdx_found :
    ∀ {l : List Nat} {i : Nat}, findBeginIdx l = some i →
      l[i]? = some SBUS_PACKET_BEGIN := by
  intro l
  induction l with
  | nil => intro i h; simp [findBeginIdx] at h
  | cons b rest ih =>
    intro i h
    by_cases hb : (b == SBUS_PACKET_BEGIN) = true
    · have hb2 : b = SBUS_PACKET_BEGIN := by simpa using hb
      simp [findBeginIdx, hb] at h
      have hi : i = 0 := by omega
      subst hi
      simp [hb2]
    · simp only [findBeginIdx, hb, Bool.false_eq_true, if_neg] at h
      rcases Option.map_eq_some'.mp h with ⟨j, hj, hji⟩
      subst hji
      simpa using ih hj

/-- Full behaviour of `find_partial_packet` on a well-formed receiver. -/
lemma find_packet_begin_spec (r : Receiver) (bytes : List Nat)
    (hp : r.packet.length = 26) (hb : bytes.length ≤ 25) :
    (findBeginIdx bytes = none ∧ r.find_packet_begin bytes = some r) ∨
    (∃ i, findBeginIdx bytes = some i ∧ i < bytes.length ∧
      bytes[i]? = some SBUS_PACKET_BEGIN ∧
      r.find_packet_begin bytes =
        some ⟨writeAt r.packet 1 (bytes.drop i), bytes.length - i⟩) := by
  cases hidx : findBeginIdx bytes with
  | none =>
    left
    exact ⟨rfl, by simp [Receiver.find_packet_begin, hidx]⟩
  | some i =>
    right
    have hi := findBeginIdx_lt_length hidx
    have hcopy : copyFromSlice r.packet 1 (1 + (bytes.length - i)) (bytes.drop i) =
        some (writeAt r.packet 1 (bytes.drop i)) :=
      copyFromSlice_some (by omega) (by omega) (by simp only [List.length_drop]; omega)
    refine ⟨i, rfl, hi, findBeginIdx_found hidx, ?_⟩
    simp [Receiver.find_packet_begin, hidx, hcopy]

/-- Symbolic evaluation of `receive` in a state with empty buffer. -/
lemma receive_size_zero_eval (pk : List Nat) (bytes : List Nat) :
    Receiver.receive ⟨pk, 0⟩ bytes =
      (if SBUS_PACKET_SIZE < bytes.length then none
       else if (bytes.length == SBUS_PACKET_SIZE) = true then
         (if (bytes.getD 0 0 == SBUS_PACKET_BEGIN &&
              is_sbus_packet_end (bytes.getD (SBUS_PACKET_SIZE - 1) 0)) = true then
            match copyFromSlice pk 1 pk.length bytes with
            | none => none
            | some pk2 =>
              match Packet.parse (Packet.ofBuf pk2) with
              | none => none
              | some d => some (⟨pk2, 0⟩, some d)
          else
            match Receiver.find_packet_begin ⟨pk, 0⟩ (bytes.drop 1) with
            | none => none
            | some r2 => some (r2, none))
       else
         match Receiver.find_packet_begin ⟨pk, 0⟩ bytes with
         | none => none
         | some r2 => some (r2, none)) := rfl

/-- Claim C5.  With an empty buffer, a frame-length chunk decodes exactly
when byte 0 is the start marker and byte 24 is in the end-marker whitelist. -/
theorem receive_empty_buffer_iff (r : Receiver) (bytes : List Nat)
    (hs : r.size = 0) (hp : r.packet.length = 26) (hb : bytes.length = 25) :
    (∃ s d, r.receive bytes = some (s, some d)) ↔
      (bytes.getD 0 0 = SBUS_PACKET_BEGIN ∧
       is_sbus_packet_end (bytes.getD 24 0) = true) := by
  obtain ⟨pk, sz⟩ := r
  simp only at hs hp
  subst hs
  rw [receive_size_zero_eval]
  have hnotlong : ¬ SBUS_PACKET_SIZE < bytes.length := by
    simp [SBUS_PACKET_SIZE, hb]
  have hlen25 : (bytes.length == SBUS_PACKET_SIZE) = true := by
    simp [SBUS_PACKET_SIZE, hb]
  rw [if_neg hnotlong, if_pos hlen25]
  by_cases hm : (bytes.getD 0 0 == SBUS_PACKET_BEGIN &&
      is_sbus_packet_end (bytes.getD (SBUS_PACKET_SIZE - 1) 0)) = true
  · rw [if_pos hm]
    have hcopy : copyFromSlice pk 1 pk.length bytes =
        some (writeAt pk 1 bytes) :=
      copyFromSlice_some (by omega) (le_refl _) (by rw [hp, hb])
    obtain ⟨d, hd, _, _⟩ := parse_ofBuf_total (writeAt pk 1 bytes)
    simp only [hcopy, hd]
    have hm2 : bytes.getD 0 0 = SBUS_PACKET_BEGIN ∧
        is_sbus_packet_end (bytes.getD 24 0) = true := by
      have := hm
      simp only [Bool.and_eq_true, beq_iff_eq] at this
      exact ⟨this.1, this.2⟩
    exact ⟨fun _ => hm2, fun _ => ⟨_, d, rfl⟩⟩
  · rw [if_neg hm]
    have hm2 : ¬ (bytes.getD 0 0 = SBUS_PACKET_BEGIN ∧
        is_sbus_packet_end (bytes.getD 24 0) = true) := by
      intro hc
      apply hm
      simp only [Bool.and_eq_true, beq_iff_eq]
      exact ⟨hc.1, hc.2⟩
    rcases find_packet_begin_spec ⟨pk, 0⟩ (bytes.drop 1) hp
        (by simp [hb]) with ⟨_, hf⟩ | ⟨i, _, _, _, hf⟩ <;>
      rw [hf] <;>
      exact ⟨fun ⟨s, d, hsd⟩ => by simp at hsd, fun hc => absurd hc hm2⟩

/-- Witness for `receive_empty_buffer_iff`: a fresh receiver and the
sample frame. -/
theorem receive_empty_buffer_iff_witness :
    Receiver.new.size = 0 ∧ Receiver.new.packet.length = 26 ∧
    sampleFrame.length = 25 ∧
    ((∃ s d, Receiver.new.receive sampleFrame = some (s, some d)) ↔
      (sampleFrame.getD 0 0 = SBUS_PACKET_BEGIN ∧
       is_sbus_packet_end (sampleFrame.getD 24 0) = true)) :=
  ⟨rfl, by decide, by decide,
   receive_empty_buffer_iff Receiver.new sampleFrame rfl (by decide) (by decide)⟩

/-- Claim C7.  A frame-length chunk of `FF` bytes on a fresh synchronizer:
`receive` returns no data and leaves the state exactly as constructed
(in particular the buffered-byte count is 0). -/
theorem receive_all_ff_returns_none :
    Receiver.new.receive (List.replicate 25 255) = some (Receiver.new, none) ∧
    Receiver.new.size = 0 := by
  decide

/-! ### Simulation machinery for the synchronizer -/

lemma usub_zero (a : Nat) : usub a 0 = a := by simp [usub]

lemma usub_of_le {a b : Nat} (h : b ≤ a) : usub a b = a - b := by simp [usub, h]

lemma usub_of_lt {a b : Nat} (h : a < b) : usub a b = 2 ^ 64 - (b - a) := by
  rw [usub, if_neg (by omega)]

lemma getElem?_of_take_eq {t1 t2 : List Nat} {s o : Nat}
    (h : t1.take s = t2.take s) (ho : o < s) : t1[o]? = t2[o]? := by
  rw [← @List.getElem?_take_of_lt Nat t1 s o ho, h, List.getElem?_take_of_lt ho]

lemma drop_take_of_take_eq {t1 t2 : List Nat} {s o : Nat}
    (h : t1.take s = t2.take s) :
    (t1.drop o).take (s - o) = (t2.drop o).take (s - o) := by
  rw [← List.drop_take, h, List.drop_take]

lemma writeAt_zero (t src : List Nat) : writeAt t 0 src = src ++ t.drop src.length := by
  simp [writeAt]

lemma writeAt_cons (h : Nat) (t src : List Nat) :
    writeAt (h :: t) 1 src = h :: (src ++ t.drop src.length) := by
  simp only [writeAt, List.take_succ_cons, List.take_zero, Nat.add_comm 1 src.length,
    List.drop_succ_cons]
  rfl

lemma writeAt_take_self {t : List Nat} {s : Nat} (hs : s ≤ t.length) :
    writeAt t 0 (t.take s) = t := by
  rw [writeAt_zero, List.length_take_of_le hs, List.take_append_drop]

lemma writeAt_assoc (t src : List Nat) (a : Nat) :
    writeAt t a src = (t.take a ++ src) ++ t.drop (a + src.length) := by
  rw [writeAt, List.append_assoc]

lemma writeAt_take_append {t src : List Nat} {a : Nat} (ha : a ≤ t.length) :
    (writeAt t a src).take (a + src.length) = t.take a ++ src := by
  rw [writeAt_assoc]
  exact List.take_left' (by simp [List.length_take_of_le ha])

lemma writeAt_getElem?_zero {t src : List Nat} {a : Nat} (ha : 0 < a)
    (ht : 0 < t.length) : (writeAt t a src)[0]? = t[0]? := by
  rw [writeAt_assoc]
  rw [List.getElem?_append_left (by simp only [List.length_append, List.length_take]; omega)]
  rw [List.getElem?_append_left (by simp only [List.length_take]; omega)]
  exact List.getElem?_take_of_lt ha

lemma copyFromSlice_none {dst src : List Nat} {a b : Nat}
    (h : ¬(a ≤ b ∧ b ≤ dst.length ∧ b - a = src.length)) :
    copyFromSlice dst a b src = none := by
  rw [copyFromSlice, if_neg h]

lemma copyFromSlice_inv {dst src out : List Nat} {a b : Nat}
    (h : copyFromSlice dst a b src = some out) :
    a ≤ b ∧ b ≤ dst.length ∧ b - a = src.length ∧ out = writeAt dst a src := by
  by_cases hc : a ≤ b ∧ b ≤ dst.length ∧ b - a = src.length
  · rw [copyFromSlice, if_pos hc] at h
    exact ⟨hc.1, hc.2.1, hc.2.2, (Option.some_inj.mp h).symm⟩
  · rw [copyFromSlice_none hc] at h
    cases h

lemma copyWithin_some {l : List Nat} {a b dest : Nat}
    (h1 : a ≤ b) (h2 : b ≤ l.length) (h3 : dest + (b - a) ≤ l.length) :
    copyWithin l a b dest = some (writeAt l dest ((l.drop a).take (b - a))) := by
  simp [copyWithin, h1, h2, h3]

lemma copyWithin_inv {l out : List Nat} {a b dest : Nat}
    (h : copyWithin l a b dest = some out) :
    a ≤ b ∧ b ≤ l.length ∧ dest + (b - a) ≤ l.length ∧
      out = writeAt l dest ((l.drop a).take (b - a)) := by
  by_cases hc : a ≤ b ∧ b ≤ l.length ∧ dest + (b - a) ≤ l.length
  · rw [copyWithin_some hc.1 hc.2.1 hc.2.2] at h
    exact ⟨hc.1, hc.2.1, hc.2.2, (Option.some_inj.mp h).symm⟩
  · rw [copyWithin, if_neg hc] at h
    cases h

/-- From a dead state the continuation loop always halts: position 0 holds
the start marker, so the first iteration either underflows `remain_size`
and indexes the chunk out of bounds (count = 25) or fails the bounds check
of the append `copy_from_slice` (count > 25). -/
lemma dead_loop_none {r : Receiver} (hd : Dead r) (c : List Nat) (hc : c.length ≤ 25) :
    r.continue_loop c (List.range r.size) = none := by
  obtain ⟨hlen, hge, hle, hpos⟩ := hd
  obtain ⟨m, hm⟩ : ∃ m, r.size = m + 1 := ⟨r.size - 1, by omega⟩
  rw [hm, List.range_succ_eq_map]
  rw [Receiver.continue_loop, hpos]
  simp only [ne_eq, not_true_eq_false, if_false, reduceIte]
  rw [usub_zero]
  rcases Nat.lt_or_ge SBUS_PACKET_SIZE r.size with hgt | hge2
  · -- count > 25 : remain_size wraps, the append bounds check fails
    rw [usub_of_lt hgt]
    rw [if_pos (by simp only [SBUS_PACKET_SIZE] at hgt ⊢; omega)]
    rw [copyFromSlice_none (by
      simp only [SBUS_PACKET_SIZE] at hgt
      simp only [List.length_drop, hlen]
      omega)]
  · -- count = 25 : remain_size = 0, the chunk is indexed at 2^64 - 1
    have h25 : r.size = 25 := by simp only [SBUS_PACKET_SIZE] at hge2; omega
    rw [usub_of_le (by omega), h25]
    simp only [SBUS_PACKET_SIZE, Nat.sub_self]
    rw [if_neg (by omega)]
    rw [usub_of_lt (by omega)]
    rw [List.getElem?_eq_none (by omega)]

/-- Every `receive` call from a dead state halts. -/
lemma dead_receive_none {r : Receiver} (hd : Dead r) (c : List Nat) :
    r.receive c = none := by
  unfold Receiver.receive
  by_cases hlong : SBUS_PACKET_SIZE < c.length
  · rw [if_pos hlong]
  · rw [if_neg hlong]
    have hsz : 0 < r.size := by have := hd.2.1; omega
    rw [if_pos hsz, dead_loop_none hd c (by simpa [SBUS_PACKET_SIZE] using hlong)]

lemma writeAt_take_front {p src : List Nat} {a : Nat} (ha : a ≤ p.length) :
    (writeAt p a src).take a = p.take a := by
  rw [writeAt]
  rw [List.take_append_of_le_length
    (by simp only [List.length_append, List.length_take]; omega)]
  rw [List.take_append_of_le_length (by simp only [List.length_take]; omega)]
  rw [List.take_take]
  simp

lemma writeAt_drop_one {p src : List Nat} (hp : 1 ≤ p.length) :
    (writeAt p 1 src).drop 1 = src ++ p.drop (1 + src.length) := by
  rw [writeAt]
  rw [List.drop_append_of_le_length
    (by simp only [List.length_append, List.length_take]; omega)]
  rw [List.drop_append_of_le_length (by simp only [List.length_take]; omega)]
  rw [List.drop_take]
  simp

/-- `find_partial_packet`, run in parallel on two receivers with equal
buffered-byte counts, equal padding cells and well-formed buffers: either
no marker is found and both states are unchanged, or both rebuffer the same
chunk suffix, giving `Core`-related results. -/
lemma find_pair {u1 u2 : Receiver} (hl1 : u1.packet.length = 26)
    (hl2 : u2.packet.length = 26) (hh : u1.packet.take 1 = u2.packet.take 1)
    (hs : u1.size = u2.size) {bs : List Nat} (hbs : bs.length ≤ 24) :
    (u1.find_packet_begin bs = some u1 ∧ u2.find_packet_begin bs = some u2) ∨
    (∃ v1 v2, u1.find_packet_begin bs = some v1 ∧
      u2.find_packet_begin bs = some v2 ∧ Core v1 v2) := by
  rcases find_packet_begin_spec u1 bs hl1 (by omega) with ⟨hn, h1⟩ | ⟨i, hi, hilt, hib, h1⟩
  · rcases find_packet_begin_spec u2 bs hl2 (by omega) with ⟨_, h2⟩ | ⟨j, hj, _, _, h2⟩
    · exact Or.inl ⟨h1, h2⟩
    · rw [hn] at hj; cases hj
  · rcases find_packet_begin_spec u2 bs hl2 (by omega) with ⟨hn2, _⟩ | ⟨j, hj, hjlt, hjb, h2⟩
    · rw [hi] at hn2; cases hn2
    · rw [hi] at hj
      injection hj with hij
      subst hij
      refine Or.inr ⟨_, _, h1, h2, ?_⟩
      have hsrc : (bs.drop i).length = bs.length - i := by simp
      have hwf1 : (writeAt u1.packet 1 (bs.drop i)).length = 26 := by
        rw [writeAt_length (by omega)]; exact hl1
      have hwf2 : (writeAt u2.packet 1 (bs.drop i)).length = 26 := by
        rw [writeAt_length (by omega)]; exact hl2
      have hd1 : (writeAt u1.packet 1 (bs.drop i)).drop 1 =
          bs.drop i ++ u1.packet.drop (1 + (bs.drop i).length) :=
        writeAt_drop_one (by omega)
      have hd2 : (writeAt u2.packet 1 (bs.drop i)).drop 1 =
          bs.drop i ++ u2.packet.drop (1 + (bs.drop i).length) :=
        writeAt_drop_one (by omega)
      refine ⟨⟨rfl, hwf1, hwf2, ?_⟩, by dsimp only; omega, ?_, ?_⟩
      · dsimp only
        rw [writeAt_take_front (by omega), writeAt_take_front (by omega), hh]
      · dsimp only
        simp only [hd1, hd2]
        rw [List.take_append_of_le_length (by omega),
          List.take_append_of_le_length (by omega)]
      · intro _
        dsimp only
        simp only [hd1]
        rw [List.getElem?_append_left (by omega)]
        rw [List.getElem?_drop]
        simpa using hib

/-- Phases 2 and 3 of `receive`, run in parallel on a related pair of
states, produce the same returned value and related (or equal) states,
and never halt. -/
lemma phase23_pair {u1 u2 : Receiver}
    (hrel : Core u1 u2 ∨ DeadP u1 u2) (c : List Nat) (hc : c.length ≤ 25) :
    ∃ v1 v2 res, u1.phase23 c = some (v1, res) ∧ u2.phase23 c = some (v2, res) ∧
      Rel v1 v2 := by
  obtain ⟨hs, hl1, hl2, hh⟩ : PairBase u1 u2 := hrel.elim (fun h => h.1) (fun h => h.1)
  unfold Receiver.phase23
  by_cases h25 : (c.length == SBUS_PACKET_SIZE) = true
  · simp only [if_pos h25]
    by_cases hm : (c.getD 0 0 == SBUS_PACKET_BEGIN &&
        is_sbus_packet_end (c.getD (SBUS_PACKET_SIZE - 1) 0)) = true
    · simp only [if_pos hm]
      have hc25 : c.length = 25 := by simpa [SBUS_PACKET_SIZE] using h25
      have h1 : copyFromSlice u1.packet 1 u1.packet.length c =
          some (writeAt u1.packet 1 c) :=
        copyFromSlice_some (by omega) le_rfl (by omega)
      have h2 : copyFromSlice u2.packet 1 u2.packet.length c =
          some (writeAt u2.packet 1 c) :=
        copyFromSlice_some (by omega) le_rfl (by omega)
      have hw12 : writeAt u2.packet 1 c = writeAt u1.packet 1 c := by
        rw [writeAt, writeAt, hh]
        rw [List.drop_eq_nil_of_le (by omega), List.drop_eq_nil_of_le (by omega)]
      obtain ⟨d, hd, _, _⟩ := parse_ofBuf_total (writeAt u1.packet 1 c)
      simp only [h1, h2, hw12, hd]
      refine ⟨_, _, some d, rfl, rfl, Or.inl ?_⟩
      rw [hs]
    · simp only [if_neg hm]
      have hdrop : (c.drop 1).length ≤ 24 := by
        simp only [List.length_drop]; omega
      rcases find_pair hl1 hl2 hh hs hdrop with ⟨f1, f2⟩ | ⟨v1, v2, f1, f2, hcore⟩
      · simp only [f1, f2]
        exact ⟨u1, u2, none, rfl, rfl, Or.inr hrel⟩
      · simp only [f1, f2]
        exact ⟨v1, v2, none, rfl, rfl, Or.inr (Or.inl hcore)⟩
  · simp only [if_neg h25]
    have hble : c.length ≤ 24 := by
      have hne : ¬ c.length = 25 := by simpa [SBUS_PACKET_SIZE] using h25
      omega
    rcases find_pair hl1 hl2 hh hs hble with ⟨f1, f2⟩ | ⟨v1, v2, f1, f2, hcore⟩
    · simp only [f1, f2]
      exact ⟨u1, u2, none, rfl, rfl, Or.inr hrel⟩
    · simp only [f1, f2]
      exact ⟨v1, v2, none, rfl, rfl, Or.inr (Or.inl hcore)⟩

lemma take_one_prepend {p : List Nat} (X : List Nat) (hp : 1 ≤ p.length) :
    (p.take 1 ++ X).take 1 = p.take 1 := by
  rw [List.take_append_of_le_length (by simp only [List.length_take]; omega),
    List.take_take]
  simp

lemma drop_one_prepend {p : List Nat} (X : List Nat) (hp : 1 ≤ p.length) :
    (p.take 1 ++ X).drop 1 = X := by
  rw [List.drop_append_of_le_length (by simp only [List.length_take]; omega),
    List.drop_take]
  simp

lemma writeAt_exact {t src : List Nat} {a : Nat} (h : a + src.length = t.length) :
    writeAt t a src = t.take a ++ src := by
  rw [writeAt, h, List.drop_length, List.append_nil]

/-- One iteration of the continuation loop on a `Core` pair: either both
sides skip to the remaining offsets (and the chunk is then known to reach
the end-marker check position for offset 0), or the joint outcome is
already decided. -/
lemma loop_cons_pair {u1 u2 : Receiver} {ch : List Nat} {o : Nat} {rest : List Nat}
    (hcore : Core u1 u2) (hpos : 0 < u1.size) (hc : ch.length ≤ 25)
    (ho : o < u1.size) (hrem : 0 < o → 25 - u1.size ≤ ch.length) :
    (u1.continue_loop ch (o :: rest) = u1.continue_loop ch rest ∧
     u2.continue_loop ch (o :: rest) = u2.continue_loop ch rest ∧
     25 - u1.size ≤ ch.length) ∨
    LoopOut (u1.continue_loop ch (o :: rest)) (u2.continue_loop ch (o :: rest)) := by
  obtain ⟨⟨hs, hl1, hl2, hh⟩, hle, hval, hpos0⟩ := hcore
  rw [← hs] at hval
  have ht1len : (u1.packet.drop 1).length = 25 := by simp [hl1]
  have ht2len : (u2.packet.drop 1).length = 25 := by simp [hl2]
  have hoeq : (u2.packet.drop 1)[o]? = (u1.packet.drop 1)[o]? :=
    (getElem?_of_take_eq hval ho).symm
  obtain ⟨v, hv⟩ : ∃ v, (u1.packet.drop 1)[o]? = some v :=
    ⟨_, List.getElem?_eq_getElem (by omega)⟩
  have hb0 : (u1.packet.drop 1)[0]? = some SBUS_PACKET_BEGIN := hpos0 hpos
  have hb02 : (u2.packet.drop 1)[0]? = some SBUS_PACKET_BEGIN := by
    rw [getElem?_of_take_eq hval hpos] at hb0
    exact hb0
  by_cases hvb : v = SBUS_PACKET_BEGIN
  case neg =>
    -- the byte at this offset is not the start marker: both sides skip
    left
    have hostrict : 0 < o := by
      rcases Nat.eq_zero_or_pos o with h0 | h0
      · subst h0; rw [hv] at hb0; exact absurd (Option.some_inj.mp hb0) hvb
      · exact h0
    refine ⟨?_, ?_, hrem hostrict⟩ <;>
      simp only [Receiver.continue_loop, hv, hoeq] <;>
      rw [if_pos (by simpa using hvb)]
  case pos =>
    subst hvb
    simp only [Receiver.continue_loop, hv, hoeq]
    simp only [if_neg (show ¬(SBUS_PACKET_BEGIN ≠ SBUS_PACKET_BEGIN) from fun h2 => h2 rfl)]
    have husz : usub u1.size o = u1.size - o := usub_of_le (by omega)
    have husz2 : usub u2.size o = u1.size - o := by rw [← hs]; exact husz
    have hurem : usub SBUS_PACKET_SIZE (u1.size - o) = 25 - (u1.size - o) := by
      rw [usub_of_le (by simp only [SBUS_PACKET_SIZE]; omega)]
      simp only [SBUS_PACKET_SIZE]
    simp only [husz, husz2, hurem, ← hs]
    by_cases happ : ch.length < 25 - (u1.size - o)
    · -- append branch: buffer the chunk
      right
      simp only [if_pos happ]
      have hcs1 : copyFromSlice (u1.packet.drop 1) (u1.size - o)
          (u1.size - o + ch.length) ch =
          some (writeAt (u1.packet.drop 1) (u1.size - o) ch) :=
        copyFromSlice_some (by omega) (by rw [ht1len]; omega) (by omega)
      have hcs2 : copyFromSlice (u2.packet.drop 1) (u1.size - o)
          (u1.size - o + ch.length) ch =
          some (writeAt (u2.packet.drop 1) (u1.size - o) ch) :=
        copyFromSlice_some (by omega) (by rw [ht2len]; omega) (by omega)
      simp only [hcs1, hcs2]
      refine Or.inr (Or.inr ⟨_, _, rfl, rfl, ?_⟩)
      have hlen1 : (u1.packet.take 1 ++ writeAt (u1.packet.drop 1) (u1.size - o) ch).length
          = 26 := by
        rw [List.length_append, writeAt_length (by rw [ht1len]; omega), ht1len]
        simp only [List.length_take]
        omega
      have hlen2 : (u2.packet.take 1 ++ writeAt (u2.packet.drop 1) (u1.size - o) ch).length
          = 26 := by
        rw [List.length_append, writeAt_length (by rw [ht2len]; omega), ht2len]
        simp only [List.length_take]
        omega
      have htk1 : ∀ (t : List Nat) (X : List Nat), t.length = 26 →
          ((t.take 1 ++ X) : List Nat).take 1 = t.take 1 :=
        fun t X hte => take_one_prepend X (by omega)
      have hdp1 : ∀ (t : List Nat) (X : List Nat), t.length = 26 →
          ((t.take 1 ++ X) : List Nat).drop 1 = X :=
        fun t X hte => drop_one_prepend X (by omega)
      rcases Nat.eq_zero_or_pos o with h0 | h0
      · -- offset 0: a clean append, the pair stays in `Core`
        subst h0
        left
        refine ⟨⟨rfl, hlen1, hlen2, ?_⟩, by dsimp only; omega, ?_, ?_⟩
        · dsimp only
          rw [htk1 _ _ hl1, htk1 _ _ hl2, hh]
        · dsimp only
          rw [hdp1 _ _ hl1, hdp1 _ _ hl2]
          simp only [Nat.sub_zero] at happ ⊢
          rw [writeAt_take_append (by omega), writeAt_take_append (by omega), hval]
        · intro _
          dsimp only
          rw [hdp1 _ _ hl1]
          simp only [Nat.sub_zero]
          rw [writeAt_getElem?_zero hpos (by omega)]
          exact hb0
      · -- later offset: the count escapes past the frame size, both dead
        right
        have h25 : 25 ≤ u1.size + ch.length := by have := hrem h0; omega
        refine ⟨⟨rfl, hlen1, hlen2, ?_⟩, ⟨hlen1, h25, by dsimp only; omega, ?_⟩,
          ⟨hlen2, by dsimp only; exact h25, by dsimp only; omega, ?_⟩⟩
        · dsimp only
          rw [htk1 _ _ hl1, htk1 _ _ hl2, hh]
        · dsimp only
          rw [hdp1 _ _ hl1, writeAt_getElem?_zero (by omega) (by omega)]
          exact hb0
        · dsimp only
          rw [hdp1 _ _ hl2, writeAt_getElem?_zero (by omega) (by omega)]
          exact hb02
    · -- the chunk reaches the end-marker position
      simp only [if_neg happ]
      have hkidx : usub (25 - (u1.size - o)) 1 = 25 - (u1.size - o) - 1 :=
        usub_of_le (by omega)
      simp only [hkidx]
      obtain ⟨last, hlast⟩ : ∃ x, ch[25 - (u1.size - o) - 1]? = some x :=
        ⟨_, List.getElem?_eq_getElem (by omega)⟩
      simp only [hlast]
      by_cases hend : is_sbus_packet_end last = true
      · -- decode: both sides assemble the same frame and agree completely
        right
        simp only [if_pos hend]
        have hcw1 : copyWithin (u1.packet.drop 1) o u1.size 0 =
            some (writeAt (u1.packet.drop 1) 0
              (((u1.packet.drop 1).drop o).take (u1.size - o))) :=
          copyWithin_some (by omega) (by omega) (by omega)
        have hcw2 : copyWithin (u2.packet.drop 1) o u2.size 0 =
            some (writeAt (u2.packet.drop 1) 0
              (((u2.packet.drop 1).drop o).take (u2.size - o))) :=
          copyWithin_some (by omega) (by omega) (by omega)
        rw [← hs] at hcw2
        have hseg : ((u2.packet.drop 1).drop o).take (u1.size - o) =
            ((u1.packet.drop 1).drop o).take (u1.size - o) :=
          (drop_take_of_take_eq hval).symm
        have hseglen : (((u1.packet.drop 1).drop o).take (u1.size - o)).length =
            u1.size - o := by
          simp only [List.length_take, List.length_drop, ht1len]
          omega
        simp only [hcw1, hcw2, hseg]
        set seg := ((u1.packet.drop 1).drop o).take (u1.size - o) with hsegdef
        have hp1len : (writeAt (u1.packet.drop 1) 0 seg).length = 25 := by
          rw [writeAt_length (by omega), ht1len]
        have hp2len : (writeAt (u2.packet.drop 1) 0 seg).length = 25 := by
          rw [writeAt_length (by omega), ht2len]
        have hctake : (ch.take (25 - (u1.size - o))).length = 25 - (u1.size - o) := by
          simp only [List.length_take]
          omega
        have hcf1 : copyFromSlice (writeAt (u1.packet.drop 1) 0 seg) (u1.size - o)
            (writeAt (u1.packet.drop 1) 0 seg).length (ch.take (25 - (u1.size - o))) =
            some (writeAt (writeAt (u1.packet.drop 1) 0 seg) (u1.size - o)
              (ch.take (25 - (u1.size - o)))) :=
          copyFromSlice_some (by omega) le_rfl (by rw [hp1len, hctake])
        have hcf2 : copyFromSlice (writeAt (u2.packet.drop 1) 0 seg) (u1.size - o)
            (writeAt (u2.packet.drop 1) 0 seg).length (ch.take (25 - (u1.size - o))) =
            some (writeAt (writeAt (u2.packet.drop 1) 0 seg) (u1.size - o)
              (ch.take (25 - (u1.size - o)))) :=
          copyFromSlice_some (by omega) le_rfl (by rw [hp2len, hctake])
        have epk : ∀ t : List Nat, t.length = 25 →
            writeAt (writeAt t 0 seg) (u1.size - o) (ch.take (25 - (u1.size - o))) =
              seg ++ ch.take (25 - (u1.size - o)) := by
          intro t ht
          have hwlen : (writeAt t 0 seg).length = 25 := by
            rw [writeAt_length (by omega)]; exact ht
          rw [writeAt_exact (by rw [hwlen, hctake]; omega)]
          rw [writeAt_zero]
          rw [List.take_append_of_le_length (by omega)]
          rw [show u1.size - o = seg.length from hseglen.symm, List.take_length]
        have hpk2 : writeAt (writeAt (u2.packet.drop 1) 0 seg) (u1.size - o)
            (ch.take (25 - (u1.size - o))) =
            writeAt (writeAt (u1.packet.drop 1) 0 seg) (u1.size - o)
            (ch.take (25 - (u1.size - o))) := by
          rw [epk _ ht2len, epk _ ht1len]
        simp only [hcf1, hcf2, hpk2, ← hh]
        obtain ⟨d, hd, _, _⟩ := parse_ofBuf_total
          (u1.packet.take 1 ++ writeAt (writeAt (u1.packet.drop 1) 0 seg)
            (u1.size - o) (ch.take (25 - (u1.size - o))))
        simp only [hd]
        have hbuflen : (u1.packet.take 1 ++ writeAt (writeAt (u1.packet.drop 1) 0 seg)
            (u1.size - o) (ch.take (25 - (u1.size - o)))).length = 26 := by
          rw [List.length_append, writeAt_length (by rw [hp1len, hctake]; omega), hp1len]
          simp only [List.length_take]
          omega
        have hfindlen : (ch.drop (25 - (u1.size - o))).length ≤ 25 := by
          simp only [List.length_drop]
          omega
        rcases find_packet_begin_spec
            ⟨u1.packet.take 1 ++ writeAt (writeAt (u1.packet.drop 1) 0 seg)
              (u1.size - o) (ch.take (25 - (u1.size - o))), 0⟩
            (ch.drop (25 - (u1.size - o))) hbuflen hfindlen with ⟨hfn, hf⟩ | ⟨i, hi1, hi2, hi3, hf⟩
        · simp only [hf]
          exact Or.inr (Or.inl ⟨_, _, rfl, rfl⟩)
        · simp only [hf]
          exact Or.inr (Or.inl ⟨_, _, rfl, rfl⟩)
      · -- failed end-marker check: both sides continue with the next offset
        left
        refine ⟨?_, ?_, by omega⟩ <;> simp only [if_neg hend]

/-- The continuation loop over the offsets after 0, once the chunk is known
to reach the end-marker check position for offset 0. -/
lemma core_loop_go {ch : List Nat} (hc : ch.length ≤ 25) :
    ∀ (offs : List Nat) (u1 u2 : Receiver), Core u1 u2 → 0 < u1.size →
      (∀ o ∈ offs, 0 < o ∧ o < u1.size) → 25 - u1.size ≤ ch.length →
      LoopOut (u1.continue_loop ch offs) (u2.continue_loop ch offs) := by
  intro offs
  induction offs with
  | nil =>
    intro u1 u2 hcore _ _ _
    simp only [Receiver.continue_loop]
    refine Or.inr (Or.inr ⟨_, _, rfl, rfl, Or.inl ?_⟩)
    obtain ⟨⟨hs, hl1, hl2, hh⟩, hle, hval, hpos0⟩ := hcore
    exact ⟨⟨rfl, hl1, hl2, hh⟩, by dsimp only; omega, by simp,
      fun h => absurd h (by dsimp only; omega)⟩
  | cons o rest ih =>
    intro u1 u2 hcore hpos hmem hrem
    have ho := hmem o (List.mem_cons_self _ _)
    rcases loop_cons_pair hcore hpos hc ho.2 (fun _ => hrem) with
      ⟨e1, e2, hrem2⟩ | hout
    · rw [e1, e2]
      exact ih u1 u2 hcore hpos (fun x hx => hmem x (List.mem_cons_of_mem _ hx)) hrem2
    · exact hout

/-- The full continuation loop (`for offset in 0..self.size`) on a `Core`
pair with a buffered partial frame. -/
lemma core_loop_range {ch : List Nat} (hc : ch.length ≤ 25) (u1 u2 : Receiver)
    (hcore : Core u1 u2) (hpos : 0 < u1.size) :
    LoopOut (u1.continue_loop ch (List.range u1.size))
      (u2.continue_loop ch (List.range u2.size)) := by
  have hs : u1.size = u2.size := hcore.1.1
  rw [← hs]
  obtain ⟨m, hm⟩ : ∃ m, u1.size = m + 1 := ⟨u1.size - 1, by omega⟩
  rw [hm, List.range_succ_eq_map]
  rcases loop_cons_pair hcore hpos hc hpos (fun h => absurd h (by omega)) with
    ⟨e1, e2, hrem2⟩ | hout
  · rw [e1, e2]
    refine core_loop_go hc _ u1 u2 hcore hpos ?_ hrem2
    intro x hx
    obtain ⟨j, hj, rfl⟩ := List.mem_map.mp hx
    have := List.mem_range.mp hj
    omega
  · exact hout

/-- One `receive` step preserves the simulation relation and produces the
same returned value (or both sides halt). -/
lemma rel_step {r1 r2 : Receiver} (h : Rel r1 r2) (ch : List Nat) :
    (r1.receive ch = none ∧ r2.receive ch = none) ∨
    (∃ s1 s2 d, r1.receive ch = some (s1, d) ∧ r2.receive ch = some (s2, d) ∧
      Rel s1 s2) := by
  rcases h with heq | hcore | hdead
  · subst heq
    cases hres : r1.receive ch with
    | none => exact Or.inl ⟨rfl, rfl⟩
    | some sd => exact Or.inr ⟨sd.1, sd.1, sd.2, rfl, rfl, Or.inl rfl⟩
  · by_cases hlong : SBUS_PACKET_SIZE < ch.length
    · left
      constructor <;> (unfold Receiver.receive; rw [if_pos hlong])
    · have hch : ch.length ≤ 25 := by
        simp only [SBUS_PACKET_SIZE] at hlong
        omega
      unfold Receiver.receive
      simp only [if_neg hlong]
      by_cases hsz : 0 < r1.size
      · have hsz2 : 0 < r2.size := hcore.1.1 ▸ hsz
        simp only [if_pos hsz, if_pos hsz2]
        rcases core_loop_range hch r1 r2 hcore hsz with
          ⟨hn1, hn2⟩ | ⟨st, d, h1, h2⟩ | ⟨v1, v2, h1, h2, hrel⟩
        · left
          constructor <;> simp only [hn1, hn2]
        · right
          simp only [h1, h2]
          exact ⟨st, st, some d, rfl, rfl, Or.inl rfl⟩
        · simp only [h1, h2]
          obtain ⟨w1, w2, res, hp1, hp2, hrelw⟩ := phase23_pair hrel ch hch
          right
          exact ⟨w1, w2, res, hp1, hp2, hrelw⟩
      · have hsz2 : ¬ 0 < r2.size := hcore.1.1 ▸ hsz
        simp only [if_neg hsz, if_neg hsz2]
        obtain ⟨w1, w2, res, hp1, hp2, hrelw⟩ := phase23_pair (Or.inl hcore) ch hch
        right
        exact ⟨w1, w2, res, hp1, hp2, hrelw⟩
  · left
    exact ⟨dead_receive_none hdead.2.1 ch, dead_receive_none hdead.2.2 ch⟩

/-- The simulation relation implies observational equivalence. -/
lemma rel_obsEquiv {r1 r2 : Receiver} (h : Rel r1 r2) : ObsEquiv r1 r2 := by
  intro cs
  induction cs generalizing r1 r2 with
  | nil => rfl
  | cons ch cs ih =>
    rcases rel_step h ch with ⟨hn1, hn2⟩ | ⟨s1, s2, d, h1, h2, hrel⟩
    · simp only [run, hn1, hn2]
    · simp only [run, h1, h2]
      rw [ih hrel]

/-! ### Well-formedness of reachable states -/

lemma find_wf {r r' : Receiver} {bs : List Nat}
    (h : r.find_packet_begin bs = some r') (hl : r.packet.length = 26)
    (ht : r.packet.take 1 = [0]) :
    r'.packet.length = 26 ∧ r'.packet.take 1 = [0] := by
  unfold Receiver.find_packet_begin at h
  cases hidx : findBeginIdx bs with
  | none =>
    simp only [hidx] at h
    obtain rfl := Option.some_inj.mp h
    exact ⟨hl, ht⟩
  | some i =>
    simp only [hidx] at h
    cases hcp : copyFromSlice r.packet 1 (1 + (bs.length - i)) (bs.drop i) with
    | none => simp only [hcp] at h; cases h
    | some pk =>
      simp only [hcp] at h
      obtain rfl := Option.some_inj.mp h
      obtain ⟨c1, c2, c3, c4⟩ := copyFromSlice_inv hcp
      subst c4
      constructor
      · dsimp only
        rw [writeAt_length (by omega)]
        exact hl
      · dsimp only
        rw [writeAt_take_front (by omega)]
        exact ht

lemma loop_wf : ∀ (offs : List Nat) (r : Receiver) (ch : List Nat)
    (res : Receiver × Option Data),
    r.continue_loop ch offs = some res → r.packet.length = 26 →
    r.packet.take 1 = [0] →
    res.1.packet.length = 26 ∧ res.1.packet.take 1 = [0] := by
  intro offs
  induction offs with
  | nil =>
    intro r ch res h hl ht
    simp only [Receiver.continue_loop] at h
    obtain rfl := Option.some_inj.mp h
    exact ⟨hl, ht⟩
  | cons o rest ih =>
    intro r ch res h hl ht
    have hdl : (r.packet.drop 1).length = 25 := by simp [hl]
    simp only [Receiver.continue_loop] at h
    cases hb : (r.packet.drop 1)[o]? with
    | none => simp only [hb] at h; cases h
    | some v =>
      simp only [hb] at h
      by_cases hvb : v ≠ SBUS_PACKET_BEGIN
      · rw [if_pos hvb] at h
        exact ih r ch res h hl ht
      · rw [if_neg hvb] at h
        by_cases happ : ch.length < usub SBUS_PACKET_SIZE (usub r.size o)
        · rw [if_pos happ] at h
          cases hcp : copyFromSlice (r.packet.drop 1) (usub r.size o)
              (usub r.size o + ch.length) ch with
          | none => simp only [hcp] at h; cases h
          | some pk =>
            simp only [hcp] at h
            obtain rfl := Option.some_inj.mp h
            obtain ⟨c1, c2, c3, c4⟩ := copyFromSlice_inv hcp
            subst c4
            constructor
            · dsimp only
              rw [List.length_append, writeAt_length (by omega), hdl]
              simp only [List.length_take]
              omega
            · dsimp only
              rw [take_one_prepend _ (by omega)]
              exact ht
        · rw [if_neg happ] at h
          cases hlast : ch[usub (usub SBUS_PACKET_SIZE (usub r.size o)) 1]? with
          | none => simp only [hlast] at h; cases h
          | some last =>
            simp only [hlast] at h
            by_cases hend : is_sbus_packet_end last = true
            · rw [if_pos hend] at h
              cases hcw : copyWithin (r.packet.drop 1) o r.size 0 with
              | none => simp only [hcw] at h; cases h
              | some pk1 =>
                simp only [hcw] at h
                cases hcf : copyFromSlice pk1 (usub r.size o) pk1.length
                    (ch.take (usub SBUS_PACKET_SIZE (usub r.size o))) with
                | none => simp only [hcf] at h; cases h
                | some pk2 =>
                  simp only [hcf] at h
                  cases hp : Packet.parse (Packet.ofBuf (r.packet.take 1 ++ pk2)) with
                  | none => simp only [hp] at h; cases h
                  | some d0 =>
                    simp only [hp] at h
                    cases hfind : Receiver.find_packet_begin
                        ⟨r.packet.take 1 ++ pk2, 0⟩
                        (ch.drop (usub SBUS_PACKET_SIZE (usub r.size o))) with
                    | none => simp only [hfind] at h; cases h
                    | some r2 =>
                      simp only [hfind] at h
                      obtain rfl := Option.some_inj.mp h
                      obtain ⟨w1, w2, w3, w4⟩ := copyWithin_inv hcw
                      obtain ⟨f1, f2, f3, f4⟩ := copyFromSlice_inv hcf
                      have hpk1len : pk1.length = 25 := by
                        subst w4
                        rw [writeAt_length (by simp only [List.length_take,
                          List.length_drop, hdl]; omega)]
                        exact hdl
                      have hpk2len : pk2.length = 25 := by
                        subst f4
                        rw [writeAt_length (by omega)]
                        exact hpk1len
                      have hblen : (r.packet.take 1 ++ pk2).length = 26 := by
                        rw [List.length_append, hpk2len]
                        simp only [List.length_take]
                        omega
                      have hbt : (r.packet.take 1 ++ pk2).take 1 = [0] := by
                        rw [take_one_prepend _ (by omega)]
                        exact ht
                      exact find_wf hfind hblen hbt
            · rw [if_neg hend] at h
              exact ih r ch res h hl ht

lemma phase23_wf {r1 r' : Receiver} {d : Option Data} {ch : List Nat}
    (h : r1.phase23 ch = some (r', d)) (hl : r1.packet.length = 26)
    (ht : r1.packet.take 1 = [0]) :
    r'.packet.length = 26 ∧ r'.packet.take 1 = [0] := by
  unfold Receiver.phase23 at h
  by_cases h25 : (ch.length == SBUS_PACKET_SIZE) = true
  · rw [if_pos h25] at h
    by_cases hm : (ch.getD 0 0 == SBUS_PACKET_BEGIN &&
        is_sbus_packet_end (ch.getD (SBUS_PACKET_SIZE - 1) 0)) = true
    · rw [if_pos hm] at h
      cases hcp : copyFromSlice r1.packet 1 r1.packet.length ch with
      | none => simp only [hcp] at h; cases h
      | some pk =>
        simp only [hcp] at h
        cases hp : Packet.parse (Packet.ofBuf pk) with
        | none => simp only [hp] at h; cases h
        | some d0 =>
          simp only [hp] at h
          obtain ⟨h1, h2⟩ := Prod.mk.injEq _ _ _ _ ▸ Option.some_inj.mp h
          subst h1
          obtain ⟨c1, c2, c3, c4⟩ := copyFromSlice_inv hcp
          subst c4
          constructor
          · dsimp only
            rw [writeAt_length (by omega)]
            exact hl
          · dsimp only
            rw [writeAt_take_front (by omega)]
            exact ht
    · rw [if_neg hm] at h
      cases hf : Receiver.find_packet_begin r1 (ch.drop 1) with
      | none => simp only [hf] at h; cases h
      | some r2 =>
        simp only [hf] at h
        obtain ⟨h1, h2⟩ := Prod.mk.injEq _ _ _ _ ▸ Option.some_inj.mp h
        subst h1
        exact find_wf hf hl ht
  · rw [if_neg h25] at h
    cases hf : Receiver.find_packet_begin r1 ch with
    | none => simp only [hf] at h; cases h
    | some r2 =>
      simp only [hf] at h
      obtain ⟨h1, h2⟩ := Prod.mk.injEq _ _ _ _ ▸ Option.some_inj.mp h
      subst h1
      exact find_wf hf hl ht

lemma receive_wf {r r' : Receiver} {d : Option Data} {ch : List Nat}
    (h : r.receive ch = some (r', d)) (hl : r.packet.length = 26)
    (ht : r.packet.take 1 = [0]) :
    r'.packet.length = 26 ∧ r'.packet.take 1 = [0] := by
  unfold Receiver.receive at h
  by_cases hlong : SBUS_PACKET_SIZE < ch.length
  · rw [if_pos hlong] at h; cases h
  · rw [if_neg hlong] at h
    cases hloop : (if 0 < r.size then r.continue_loop ch (List.range r.size)
        else some (r, none)) with
    | none => simp only [hloop] at h; cases h
    | some rd =>
      simp only [hloop] at h
      have hrd : rd.1.packet.length = 26 ∧ rd.1.packet.take 1 = [0] := by
        by_cases hsz : 0 < r.size
        · rw [if_pos hsz] at hloop
          exact loop_wf _ r ch rd hloop hl ht
        · rw [if_neg hsz] at hloop
          obtain rfl := Option.some_inj.mp hloop
          exact ⟨hl, ht⟩
      obtain ⟨r1, d1⟩ := rd
      cases d1 with
      | some d0 =>
        obtain ⟨h1, h2⟩ := Prod.mk.injEq _ _ _ _ ▸ Option.some_inj.mp h
        subst h1
        exact hrd
      | none =>
        exact phase23_wf h hrd.1 hrd.2

/-- Every reachable receiver state has a well-formed 26-byte buffer whose
padding cell still holds the initial zero. -/
lemma reachable_wf {r : Receiver} (h : Reachable r) :
    r.packet.length = 26 ∧ r.packet.take 1 = [0] := by
  induction h with
  | base => exact ⟨by decide, by decide⟩
  | step hr hlen hrec ih => exact receive_wf hrec ih.1 ih.2
  | reset hr ih => exact ih

/-- `receive` from an empty-buffer state with a legal chunk never halts. -/
lemma receive_size_zero_some (pk : List Nat) (hpk : pk.length = 26)
    (ch : List Nat) (hch : ch.length ≤ 25) :
    ∃ v res, Receiver.receive ⟨pk, 0⟩ ch = some (v, res) := by
  rw [receive_size_zero_eval]
  rw [if_neg (by simp only [SBUS_PACKET_SIZE]; omega)]
  by_cases h25 : (ch.length == SBUS_PACKET_SIZE) = true
  · rw [if_pos h25]
    have hc25 : ch.length = 25 := by simpa [SBUS_PACKET_SIZE] using h25
    by_cases hm : (ch.getD 0 0 == SBUS_PACKET_BEGIN &&
        is_sbus_packet_end (ch.getD (SBUS_PACKET_SIZE - 1) 0)) = true
    · rw [if_pos hm]
      have hcs : copyFromSlice pk 1 pk.length ch = some (writeAt pk 1 ch) :=
        copyFromSlice_some (by omega) le_rfl (by omega)
      obtain ⟨d, hd, _, _⟩ := parse_ofBuf_total (writeAt pk 1 ch)
      simp only [hcs, hd]
      exact ⟨_, _, rfl⟩
    · rw [if_neg hm]
      rcases find_packet_begin_spec ⟨pk, 0⟩ (ch.drop 1) hpk
          (by simp only [List.length_drop]; omega) with ⟨_, hf⟩ | ⟨i, _, _, _, hf⟩ <;>
        simp only [hf] <;> exact ⟨_, _, rfl⟩
  · rw [if_neg h25]
    rcases find_packet_begin_spec ⟨pk, 0⟩ ch hpk hch with ⟨_, hf⟩ | ⟨i, _, _, _, hf⟩ <;>
      simp only [hf] <;> exact ⟨_, _, rfl⟩

/-- Claim C8.  From any reachable state holding a buffered partial frame,
`reset` followed by `receive` returns the same value as `receive` on a
newly constructed synchronizer, and the two resulting states are
observationally equivalent (every subsequent chunk sequence produces the
same outputs from both). -/
theorem reset_receive_like_new (r : Receiver) (ch : List Nat) (hr : Reachable r)
    (hpart : 0 < r.size) (hch : ch.length ≤ SBUS_PACKET_SIZE) :
    ∃ s1 s2 d, (r.reset).receive ch = some (s1, d) ∧
      Receiver.new.receive ch = some (s2, d) ∧ ObsEquiv s1 s2 := by
  obtain ⟨hl, ht⟩ := reachable_wf hr
  have hch25 : ch.length ≤ 25 := by
    simp only [SBUS_PACKET_SIZE] at hch
    omega
  have hcore : Core r.reset Receiver.new := by
    refine ⟨⟨rfl, hl, by decide, ?_⟩, ?_, ?_, ?_⟩
    · show List.take 1 r.packet = List.take 1 Receiver.new.packet
      rw [ht]
      decide
    · show (0 : Nat) ≤ 24
      omega
    · show (r.packet.drop 1).take 0 = (Receiver.new.packet.drop 1).take 0
      simp
    · intro h0
      exact absurd h0 (by show ¬ (0 : Nat) < 0; omega)
  rcases rel_step (Or.inr (Or.inl hcore)) ch with ⟨hn1, _⟩ | ⟨s1, s2, d, h1, h2, hrel⟩
  · obtain ⟨v, res, hsome⟩ := receive_size_zero_some r.packet hl ch hch25
    have hre : (⟨r.packet, 0⟩ : Receiver) = r.reset := rfl
    rw [hre, hn1] at hsome
    cases hsome
  · exact ⟨s1, s2, d, h1, h2, rel_obsEquiv hrel⟩

/-- Witness for `reset_receive_like_new`: the reachable state obtained by
feeding the single byte `0F` to a fresh synchronizer, reset and then fed
the sample frame. -/
theorem reset_receive_like_new_witness :
    Reachable (⟨0 :: 15 :: List.replicate 24 0, 1⟩ : Receiver) ∧
    0 < (⟨0 :: 15 :: List.replicate 24 0, 1⟩ : Receiver).size ∧
    sampleFrame.length ≤ SBUS_PACKET_SIZE ∧
    (∃ s1 s2 d,
      ((⟨0 :: 15 :: List.replicate 24 0, 1⟩ : Receiver).reset).receive sampleFrame =
        some (s1, d) ∧
      Receiver.new.receive sampleFrame = some (s2, d) ∧ ObsEquiv s1 s2) := by
  have hreach : Reachable (⟨0 :: 15 :: List.replicate 24 0, 1⟩ : Receiver) :=
    @Reachable.step Receiver.new _ [15] none Reachable.base (by decide) (by decide)
  exact ⟨hreach, by decide, by decide,
    reset_receive_like_new _ _ hreach (by decide) (by decide)⟩

end SBus
